import Mathlib

/-!
Shallow embedding of the TCP segment codec from `src/tcp.cpp` (libtins).

Machine integers are modelled as `Nat` with explicit reductions (`% 256`,
`% 16`, ...) at the points where the C++ code stores into a fixed-width
field or bitfield.  Buffers are `List Nat` of byte values; well-formedness
hypotheses (`b < 256`) stand in for the `uint8_t` type of the C++ buffer.
The class declarations of `tcp.h` / `pdu_option.h` / `utils.cpp` are not
part of the source slice; the struct layout and the checksum primitives
follow the specification (wire layout section and serializer section) and
are marked `Modelled from the spec:` where that is the case.
-/

/-- One TCP option record, mirroring `PDUOption` as used by `TCP`:
`kind` models the `uint8_t` option type, `lengthField` the stored length
field (`opt.length_field()`), `data` the owned payload bytes
(`opt.data_ptr()`, `opt.data_size() = data.length`).  Well-formed records
keep `kind < 256` and byte-valued `data`. -/
structure TCPOpt where
  kind : Nat
  lengthField : Nat
  data : List Nat
deriving DecidableEq, Repr

/-- The fixed 20-byte TCP header `tcphdr`, fields held host-endian; the
big-endian wire form is produced by `headerBytes`.  `res1` and `doff` are
the two 4-bit fields of wire byte 12, `flags8` the 8 one-bit flag fields
of wire byte 13 packed in canonical order (FIN = bit 0 ... CWR = bit 7).
Layout is from the spec's wire-layout section (`tcp.h` is outside the
source slice). -/
structure TCPHeader where
  sport : Nat
  dport : Nat
  seq : Nat
  ack_seq : Nat
  res1 : Nat
  doff : Nat
  flags8 : Nat
  window : Nat
  check : Nat
  urg_ptr : Nat
deriving DecidableEq, Repr

/-- A TCP segment: header, ordered option table, the two running size
counters `_options_size` / `_total_options_size`, and the trailing
payload (the `RawPDU` inner pdu; `[]` models "no inner pdu", matching the
parser which only attaches an inner pdu when bytes remain). -/
structure TCPSeg where
  hdr : TCPHeader
  options : List TCPOpt
  options_size : Nat
  total_options_size : Nat
  payload : List Nat
deriving DecidableEq, Repr

/-- Wire footprint of one option as counted by `TCP::internal_add_option`
and `TCP::remove_option`: one byte for the kind, plus (length byte +
payload) exactly when the payload is nonempty or the kind is SACK-permitted
(`SACK_OK = 4`). -/
def footprint (o : TCPOpt) : Nat :=
  1 + (if o.data.length ≠ 0 ∨ o.kind = 4 then 1 + o.data.length else 0)

/-- Sum of `footprint` over an option table. -/
def sumFootprint : List TCPOpt → Nat
  | [] => 0
  | o :: rest => footprint o + sumFootprint rest

/-- `TCP::update_options_size`: round `_options_size` up to the next
multiple of 4 (`padding = size & 3`). -/
def round4 (s : Nat) : Nat :=
  if s % 4 = 0 then s else s - s % 4 + 4

/-- `TCP::add_option`: append the record and update both counters via
`internal_add_option` / `update_options_size`. -/
def addOption (seg : TCPSeg) (o : TCPOpt) : TCPSeg :=
  let os := seg.options_size + footprint o
  { seg with
    options := seg.options ++ [o]
    options_size := os
    total_options_size := round4 os }

/-- First-match removal from the option table (the `find_if` +
`erase` of `TCP::remove_option`): returns the removed record and the
remaining table, or `none` when the kind is absent. -/
def removeFirst : List TCPOpt → Nat → Option (TCPOpt × List TCPOpt)
  | [], _ => none
  | o :: rest, k =>
    if o.kind = k then some (o, rest)
    else (removeFirst rest k).map (fun p => (p.1, o :: p.2))

/-- `TCP::remove_option`: `false` and no change when the kind is absent;
otherwise subtract the found record's footprint, erase it, and recompute
`_total_options_size`. -/
def removeOption (seg : TCPSeg) (k : Nat) : Bool × TCPSeg :=
  match removeFirst seg.options k with
  | none => (false, seg)
  | some (f, rest) =>
    let os := seg.options_size - footprint f
    (true, { seg with
             options := rest
             options_size := os
             total_options_size := round4 os })

/-- The constructor `TCP::TCP(dport, sport)`: zero-initialised header,
then `dport`, `sport`, `data_offset(5)`, `window(DEFAULT_WINDOW)`; the
setters store 16-bit values (modelled by `% 65536`). -/
def newTCP (dport sport : Nat) : TCPSeg :=
  { hdr := { sport := sport % 65536
             dport := dport % 65536
             seq := 0
             ack_seq := 0
             res1 := 0
             doff := 5
             flags8 := 0
             window := 32678
             check := 0
             urg_ptr := 0 }
    options := []
    options_size := 0
    total_options_size := 0
    payload := [] }

/-- The eight named flag identifiers of `TCP::Flags` covered by
`get_flag` / `set_flag`. -/
inductive TCPFlag where
  | FIN | SYN | RST | PSH | ACK | URG | ECE | CWR
deriving DecidableEq, Repr

/-- Bit position of each named flag inside wire byte 13 (`flags_8`),
FIN lowest. -/
def flagPos : TCPFlag → Nat
  | .FIN => 0
  | .SYN => 1
  | .RST => 2
  | .PSH => 3
  | .ACK => 4
  | .URG => 5
  | .ECE => 6
  | .CWR => 7

/-- `TCP::get_flag`: read the single matching bit of `flags_8`. -/
def getFlag (seg : TCPSeg) (f : TCPFlag) : Nat :=
  seg.hdr.flags8 / 2 ^ flagPos f % 2

/-- `TCP::set_flag`: write the single matching one-bit field of `flags_8`
(the 1-bit field stores `value % 2`). -/
def setFlag (seg : TCPSeg) (f : TCPFlag) (v : Nat) : TCPSeg :=
  { seg with hdr :=
    { seg.hdr with flags8 :=
      (seg.hdr.flags8 &&& (255 ^^^ (1 <<< flagPos f))) ||| ((v % 2) <<< flagPos f) } }

/-- The aggregate getter `TCP::flags()`: `(res1 << 8) | flags_8`. -/
def flagsAgg (seg : TCPSeg) : Nat :=
  (seg.hdr.res1 <<< 8) ||| seg.hdr.flags8

/-- The aggregate setter `TCP::flags(value)`:
`res1 = (value >> 8) & 0x0f`, `flags_8 = value & 0xff`. -/
def setFlags (seg : TCPSeg) (v : Nat) : TCPSeg :=
  { seg with hdr :=
    { seg.hdr with
      res1 := v / 256 % 16
      flags8 := v % 256 } }

/-- `TCP::write_option`: kinds 0 and 1 are a bare kind byte; any other
kind emits kind byte, a length byte (the stored length field cast to
`uint8_t`, with `+ 2` added in byte arithmetic only when the stored field
equals the true payload size), then the payload bytes. -/
def writeOption (o : TCPOpt) : List Nat :=
  if o.kind = 0 ∨ o.kind = 1 then [o.kind]
  else
    o.kind ::
      ((o.lengthField % 256 + (if o.lengthField = o.data.length then 2 else 0)) % 256) ::
      o.data

/-- Number of wire bytes `writeOption` emits for one record. -/
def wireLen (o : TCPOpt) : Nat :=
  if o.kind = 0 ∨ o.kind = 1 then 1 else 2 + o.data.length

/-- Sum of `wireLen` over an option table. -/
def sumWireLen : List TCPOpt → Nat
  | [] => 0
  | o :: rest => wireLen o + sumWireLen rest

/-- Big-endian bytes of a 16-bit value (`Endian::host_to_be` storage of a
`uint16_t` field). -/
def be16 (v : Nat) : List Nat :=
  [v / 256 % 256, v % 256]

/-- Big-endian bytes of a 32-bit value. -/
def be32 (v : Nat) : List Nat :=
  [v / 16777216 % 256, v / 65536 % 256, v / 256 % 256, v % 256]

/-- The 20 wire bytes of the fixed header (`memcpy(tcp_start, &_tcp, 20)`):
byte 12 packs `doff` in the high nibble and `res1` in the low nibble,
byte 13 is `flags_8`; multi-byte fields are big-endian.  Layout follows
the spec's wire-layout section. -/
def headerBytes (h : TCPHeader) : List Nat :=
  be16 h.sport ++ be16 h.dport ++ be32 h.seq ++ be32 h.ack_seq ++
    [h.doff % 16 * 16 + h.res1 % 16, h.flags8 % 256] ++
    be16 h.window ++ be16 h.check ++ be16 h.urg_ptr

/-- The header as mutated by `write_serialization`: same fields with the
checksum field replaced by `c` and the 4-bit `doff` field by `d`. -/
def hdrSerial (h : TCPHeader) (c d : Nat) : TCPHeader :=
  ⟨h.sport, h.dport, h.seq, h.ack_seq, h.res1, d, h.flags8, h.window, c, h.urg_ptr⟩

/-- Overwrite `bytes` into `buf` starting at position `pos` (a raw
pointer write into the serialization buffer). -/
def writeAt (buf : List Nat) (pos : Nat) (bytes : List Nat) : List Nat :=
  buf.take pos ++ bytes ++ buf.drop (pos + bytes.length)

/-- The encapsulating layer consulted for the checksum pseudo-header:
no recognized parent, an IPv4 parent (two 32-bit addresses), or an IPv6
parent (two 128-bit addresses). -/
inductive Parent where
  | none
  | ipv4 (src dst : Nat)
  | ipv6 (src dst : Nat)
deriving DecidableEq, Repr

/-- Modelled from the spec: `Utils::do_checksum` (in `utils.cpp`, outside
the source slice) — the sum of the buffer taken as big-endian 16-bit
words, a trailing odd byte padded with zero. -/
def sum16 : List Nat → Nat
  | [] => 0
  | [b] => b * 256
  | b0 :: b1 :: rest => (b0 * 256 + b1) + sum16 rest

/-- Sum of the 16-bit big-endian words of an `n`-word value (most
significant word first), used for pseudo-header address fields. -/
def sumWords (v : Nat) : Nat → Nat
  | 0 => 0
  | n + 1 => v % 65536 + sumWords (v / 65536) n

/-- Modelled from the spec: `Utils::pseudoheader_checksum` (outside the
source slice) — the 16-bit word sum of source address, destination
address, segment length and the TCP protocol number 6. -/
def pseudoheaderSum (parent : Parent) (len : Nat) : Nat :=
  match parent with
  | .none => 0
  | .ipv4 src dst => sumWords src 2 + sumWords dst 2 + len + 6
  | .ipv6 src dst => sumWords src 8 + sumWords dst 8 + len + 6

/-- Fuel-bounded iteration of the end-around carry fold; each step with
`c ≥ 2^16` strictly decreases `c`, so `c` itself is always enough fuel. -/
def foldCarriesAux : Nat → Nat → Nat
  | 0, c => c
  | fuel + 1, c => if c < 65536 then c else foldCarriesAux fuel (c % 65536 + c / 65536)

/-- The end-around carry fold of `write_serialization`:
`while (check >> 16) check = (check & 0xffff) + (check >> 16)`. -/
def foldCarries (c : Nat) : Nat :=
  foldCarriesAux c c

/-- The checksum value stored by `write_serialization` when a pseudo-header
parent is present: fold the carries of pseudo-header sum plus buffer sum,
then complement (`checksum(~check)` truncated to 16 bits). -/
def tcpChecksum (parent : Parent) (len : Nat) (bytes : List Nat) : Nat :=
  65535 - foldCarries (pseudoheaderSum parent len + sum16 bytes)

/-- The buffer state `write_serialization` produces before the checksum
step, including the enclosing `PDU::serialize` machinery: the framework
allocates a zeroed buffer of `size() = 20 + _total_options_size +
payload.length` bytes and serializes the inner pdu (the raw payload) at
offset `header_size()` first; then `write_serialization` zeroes the
checksum field, recomputes the 4-bit `doff` field from
`(20 + _total_options_size) / 4`, writes each option in table order
starting at offset 20, writes `_total_options_size - _options_size`
No-Op padding bytes after the last emitted option byte when
`_options_size < _total_options_size`, and copies the 20 header bytes to
the front. -/
def serializeBody (seg : TCPSeg) : List Nat :=
  let totalSz := 20 + seg.total_options_size + seg.payload.length
  let hdr1 := { seg.hdr with
                check := 0
                doff := (20 + seg.total_options_size) / 4 % 16 }
  let emitted := seg.options.flatMap writeOption
  let buf1 := writeAt (List.replicate totalSz 0) (20 + seg.total_options_size) seg.payload
  let buf2 := writeAt buf1 20 emitted
  let buf3 := if seg.options_size < seg.total_options_size then
                writeAt buf2 (20 + emitted.length)
                  (List.replicate (seg.total_options_size - seg.options_size) 1)
              else buf2
  writeAt buf3 0 (headerBytes hdr1)

/-- The checksum step of `write_serialization`: for an IPv4 or IPv6
parent, patch the computed checksum into the segment and into wire bytes
16-17; with no recognized parent the checksum field stays at the zero
written at the start. -/
def writeSerialization (seg : TCPSeg) (parent : Parent) : List Nat × TCPSeg :=
  let body := serializeBody seg
  let hdr1 := { seg.hdr with
                check := 0
                doff := (20 + seg.total_options_size) / 4 % 16 }
  match parent with
  | .none => (body, { seg with hdr := hdr1 })
  | _ =>
    let c := tcpChecksum parent (20 + seg.total_options_size + seg.payload.length) body
    (writeAt body 16 (be16 c), { seg with hdr := { hdr1 with check := c } })

/-- Decode the fixed 20-byte header from the front of a buffer, the
inverse of `headerBytes` (the constructor's `stream.read(_tcp)` followed
by the big-endian getters). -/
def decodeHeader (buf : List Nat) : TCPHeader :=
  { sport := buf.getD 0 0 * 256 + buf.getD 1 0
    dport := buf.getD 2 0 * 256 + buf.getD 3 0
    seq := buf.getD 4 0 * 16777216 + buf.getD 5 0 * 65536 + buf.getD 6 0 * 256 + buf.getD 7 0
    ack_seq := buf.getD 8 0 * 16777216 + buf.getD 9 0 * 65536 + buf.getD 10 0 * 256 + buf.getD 11 0
    res1 := buf.getD 12 0 % 16
    doff := buf.getD 12 0 / 16
    flags8 := buf.getD 13 0
    window := buf.getD 14 0 * 256 + buf.getD 15 0
    check := buf.getD 16 0 * 256 + buf.getD 17 0
    urg_ptr := buf.getD 18 0 * 256 + buf.getD 19 0 }

/-- The option-scanning loop of `TCP::TCP(buffer, total_sz)`.  `p` is the
scan pointer (`stream.pointer()` as a buffer index), `hdrEnd` is
`data_offset * 4`.  The memory stream is bounded by the full buffer, so
single-byte reads are checked against `buf.length`; the option-payload
check is against `hdrEnd`.  Returns the parsed records in wire order (or
an error for a malformed option / exhausted stream) together with the
list of buffer indices the loop read, in read order, which also covers
the reads performed on a path that ends in an error.  The loop advances
the pointer by at least one byte per iteration, so `fuel = hdrEnd`
(as passed by `parse`) always out-runs the loop; fuel exhaustion is
modelled as an error with no reads. -/
def scanOptions (buf : List Nat) (hdrEnd : Nat) : Nat → Nat →
    Except Unit (List TCPOpt) × List Nat
  | 0, _ => (.error (), [])
  | fuel + 1, p =>
    if p < hdrEnd then
      if p < buf.length then
        let kind := buf.getD p 0
        if kind ≤ 1 then
          let r := scanOptions buf hdrEnd fuel (p + 1)
          (r.1.map (fun l => ⟨kind, 0, []⟩ :: l), p :: r.2)
        else
          if p + 1 < buf.length then
            let len := buf.getD (p + 1) 0
            if len < 2 then (.error (), [p, p + 1])
            else if p + len > hdrEnd then (.error (), [p, p + 1])
            else
              let payload := (buf.drop (p + 2)).take (len - 2)
              let r := scanOptions buf hdrEnd fuel (p + len)
              (r.1.map (fun l => ⟨kind, len - 2, payload⟩ :: l),
               p :: (p + 1) :: ((List.range (len - 2)).map (fun i => p + 2 + i) ++ r.2))
          else (.error (), [p])
      else (.error (), [])
    else (.ok [], [])

/-- The parsing constructor `TCP::TCP(buffer, total_sz)`: read the fixed
header (`malformed_packet` when fewer than 20 bytes are available), check
`data_offset * 4` against the buffer length and the fixed header size,
scan the options area, rebuild the size counters through `add_option`,
and attach any bytes past `data_offset * 4` as the raw trailing
payload. -/
def parse (buf : List Nat) : Except Unit TCPSeg :=
  if buf.length < 20 then .error ()
  else
    let hdr := decodeHeader buf
    let hdrEnd := hdr.doff * 4
    if hdrEnd > buf.length ∨ hdrEnd < 20 then .error ()
    else
      match (scanOptions buf hdrEnd hdrEnd 20).1 with
      | .error _ => .error ()
      | .ok opts =>
        let seg0 : TCPSeg :=
          { hdr := hdr, options := [], options_size := 0,
            total_options_size := 0, payload := [] }
        .ok { (opts.foldl addOption seg0) with payload := buf.drop hdrEnd }

/-- Modelled from the spec: `RawPDU::matches_response` (in `rawpdu.h`,
outside the source slice) — the inner raw payload matches a candidate
byte range when it appears at the front of that range. -/
def rawMatches (payload cand : List Nat) : Bool :=
  decide (cand.take payload.length = payload)

/-- `TCP::matches_response`: fail below 20 bytes; compare the candidate's
raw big-endian port fields against this segment's stored `dport`/`sport`
(raw `uint16_t` equality of the stored fields equals equality of the
decoded values); on a reversed port pair, delegate to the inner payload
past the candidate's own header length if one exists, else match. -/
def matchesResponse (seg : TCPSeg) (cand : List Nat) : Bool :=
  if cand.length < 20 then false
  else
    if (cand.getD 0 0 * 256 + cand.getD 1 0 = seg.hdr.dport ∧
        cand.getD 2 0 * 256 + cand.getD 3 0 = seg.hdr.sport) then
      if seg.payload = [] then true
      else
        let sz := min cand.length (cand.getD 12 0 / 16 * 4)
        rawMatches seg.payload (cand.drop sz)
    else false

/-- The malformed-option condition of the claims, written from the spec's
words: scanning from `p`, a non-special option fails when its declared
length byte is less than 2 or its payload would extend past
`data_offset * 4` (an option whose length byte would lie outside the
buffer extends past the boundary as well). -/
def specScanFails (buf : List Nat) (hdrEnd : Nat) : Nat → Nat → Bool
  | 0, _ => true
  | fuel + 1, p =>
    if p < hdrEnd then
      let kind := buf.getD p 0
      if kind ≤ 1 then specScanFails buf hdrEnd fuel (p + 1)
      else
        if p + 1 < buf.length then
          let len := buf.getD (p + 1) 0
          if len < 2 then true
          else if p + len > hdrEnd then true
          else specScanFails buf hdrEnd fuel (p + len)
        else true
    else false

/-- The per-record footprint as the claim words it: 1 byte for
End-of-Options or No-Op, 2 + payload length for every other kind. -/
def specFootprint (o : TCPOpt) : Nat :=
  if o.kind = 0 ∨ o.kind = 1 then 1 else 2 + o.data.length

/-- Sum of `specFootprint` over an option table. -/
def sumSpecFootprint : List TCPOpt → Nat
  | [] => 0
  | o :: rest => specFootprint o + sumSpecFootprint rest

/-- Well-formed option record: the kind and payload are byte-valued, the
stored length field is unspoofed and fits the one-byte wire field,
End-of-Options and No-Op records carry no payload, and every other kind
except SACK-permitted carries a nonempty payload (so that the counted
footprint equals the emitted wire bytes). -/
def WFOpt (o : TCPOpt) : Prop :=
  o.kind < 256 ∧
  o.lengthField = o.data.length ∧
  o.data.length + 2 ≤ 255 ∧
  (o.kind ≤ 1 → o.data = []) ∧
  (2 ≤ o.kind → o.kind ≠ 4 → o.data ≠ []) ∧
  (∀ b ∈ o.data, b < 256)

/-- Validly constructed segment: size counters consistent with the option
table (as every `add_option` / `remove_option` history keeps them), the
options area fits the 40 bytes the 4-bit `data_offset` can address,
well-formed option records, and all header/payload values in their field
ranges. -/
def WFSeg (seg : TCPSeg) : Prop :=
  seg.options_size = sumFootprint seg.options ∧
  seg.total_options_size = round4 seg.options_size ∧
  seg.total_options_size ≤ 40 ∧
  (∀ o ∈ seg.options, WFOpt o) ∧
  seg.hdr.sport < 65536 ∧
  seg.hdr.dport < 65536 ∧
  seg.hdr.seq < 4294967296 ∧
  seg.hdr.ack_seq < 4294967296 ∧
  seg.hdr.res1 < 16 ∧
  seg.hdr.flags8 < 256 ∧
  seg.hdr.window < 65536 ∧
  seg.hdr.urg_ptr < 65536 ∧
  (∀ b ∈ seg.payload, b < 256)

instance (o : TCPOpt) : Decidable (WFOpt o) := by
  unfold WFOpt; infer_instance

instance (seg : TCPSeg) : Decidable (WFSeg seg) := by
  unfold WFSeg; infer_instance


/-- A kind absent from the table makes the first-match search miss. -/
lemma removeFirst_eq_none {l : List TCPOpt} {k : Nat}
    (h : ∀ o ∈ l, o.kind ≠ k) : removeFirst l k = none := by
  induction l with
  | nil => rfl
  | cons o rest ih =>
    simp only [removeFirst]
    rw [if_neg (h o (by simp)), ih (fun o ho => h o (by simp [ho]))]
    rfl

/-- C6 — `remove_option` on an absent kind returns `false` (a not-found
result, no error) and leaves the option sequence, `_options_size` and
`_total_options_size` exactly as they were: the whole segment is
unchanged. -/
theorem claim_C6 (seg : TCPSeg) (k : Nat)
    (h : ∀ o ∈ seg.options, o.kind ≠ k) :
    removeOption seg k = (false, seg) := by
  unfold removeOption
  rw [removeFirst_eq_none h]

/-- C6 witness: removing kind 2 from a table holding only kind 3. -/
theorem claim_C6_witness :
    removeOption (addOption (newTCP 0 0) ⟨3, 1, [5]⟩) 2 =
      (false, addOption (newTCP 0 0) ⟨3, 1, [5]⟩) :=
  claim_C6 (addOption (newTCP 0 0) ⟨3, 1, [5]⟩) 2 (by decide)

/-- C7 — flags round both ways: from a clear flags byte (and clear
reserved nibble), setting any one named flag to 1 makes the 12-bit
aggregate exactly that flag's canonical bit; and after storing any 12-bit
value through the aggregate setter, each named flag reads back the
corresponding bit of that value. -/
theorem claim_C7 :
    (∀ seg f, seg.hdr.res1 = 0 → seg.hdr.flags8 = 0 →
      flagsAgg (setFlag seg f 1) = 2 ^ flagPos f) ∧
    (∀ seg v f, v < 4096 →
      getFlag (setFlags seg v) f = v / 2 ^ flagPos f % 2) := by
  constructor
  · intro seg f h1 h2
    cases f <;> simp [flagsAgg, setFlag, flagPos, h1, h2]
  · intro seg v f hv
    cases f <;> simp only [getFlag, setFlags, flagPos] <;> omega

/-- C7 witness: SYN alone gives aggregate 2; after storing 0xAAA, the ACK
bit reads back bit 4 of 0xAAA. -/
theorem claim_C7_witness :
    flagsAgg (setFlag (newTCP 0 0) TCPFlag.SYN 1) = 2 ^ flagPos TCPFlag.SYN ∧
    getFlag (setFlags (newTCP 0 0) 2730) TCPFlag.ACK =
      2730 / 2 ^ flagPos TCPFlag.ACK % 2 :=
  ⟨claim_C7.1 (newTCP 0 0) TCPFlag.SYN (by decide) (by decide),
   claim_C7.2 (newTCP 0 0) 2730 TCPFlag.ACK (by decide)⟩


/-- Erasing the first match splits the footprint sum. -/
lemma removeFirst_sumFootprint {l : List TCPOpt} {k : Nat} {f : TCPOpt}
    {rest : List TCPOpt} (h : removeFirst l k = some (f, rest)) :
    sumFootprint l = footprint f + sumFootprint rest := by
  induction l generalizing rest with
  | nil => simp [removeFirst] at h
  | cons o tl ih =>
    simp only [removeFirst] at h
    split at h
    · cases h
      simp [sumFootprint]
    · cases hr : removeFirst tl k with
      | none => rw [hr] at h; simp at h
      | some p =>
        obtain ⟨f1, l1⟩ := p
        rw [hr] at h
        simp only [Option.map_some'] at h
        cases h
        simp only [sumFootprint, ih hr]
        omega

/-- C5 (amended) — `_options_size` always equals the sum of the per-record
footprints actually counted by the code: 1 byte for a record with empty
payload other than SACK-permitted, and 2 + payload length for a record
with nonempty payload or of kind SACK-permitted.  The equation holds for
a fresh segment and is preserved by every `add_option` and
`remove_option`. -/
theorem claim_C5_amended :
    (∀ d s, (newTCP d s).options_size = sumFootprint (newTCP d s).options) ∧
    (∀ seg o, seg.options_size = sumFootprint seg.options →
      (addOption seg o).options_size = sumFootprint (addOption seg o).options) ∧
    (∀ seg k, seg.options_size = sumFootprint seg.options →
      ((removeOption seg k).2).options_size =
        sumFootprint ((removeOption seg k).2).options) := by
  have happ : ∀ (l : List TCPOpt) (o : TCPOpt),
      sumFootprint (l ++ [o]) = sumFootprint l + footprint o := by
    intro l o
    induction l with
    | nil => simp [sumFootprint]
    | cons x tl ih =>
      show footprint x + sumFootprint (tl ++ [o]) = footprint x + sumFootprint tl + footprint o
      rw [ih]
      omega
  refine ⟨fun d s => rfl, ?_, ?_⟩
  · intro seg o h
    simp only [addOption, happ, h]
  · intro seg k h
    unfold removeOption
    cases hr : removeFirst seg.options k with
    | none => exact h
    | some p =>
      obtain ⟨f, rest⟩ := p
      have := removeFirst_sumFootprint hr
      simp only []
      omega

/-- C5 counterexample — the claim assigns footprint 2 + payload length to
every kind other than End-of-Options and No-Op, but an empty-payload
record of kind 5 (SACK) is counted as 1 byte by `internal_add_option`:
after adding it, `_options_size` is 1 while the claimed sum is 2. -/
theorem claim_C5_counterexample :
    (addOption (newTCP 0 0) ⟨5, 0, []⟩).options_size = 1 ∧
    sumSpecFootprint (addOption (newTCP 0 0) ⟨5, 0, []⟩).options = 2 ∧
    (addOption (newTCP 0 0) ⟨5, 0, []⟩).options_size ≠
      sumSpecFootprint (addOption (newTCP 0 0) ⟨5, 0, []⟩).options := by
  refine ⟨by decide, by decide, by decide⟩

/-- C5 witness: the preserved equation at a concrete add and remove. -/
theorem claim_C5_witness :
    (addOption (newTCP 0 0) ⟨2, 2, [0, 4]⟩).options_size =
      sumFootprint (addOption (newTCP 0 0) ⟨2, 2, [0, 4]⟩).options ∧
    ((removeOption (addOption (newTCP 0 0) ⟨2, 2, [0, 4]⟩) 2).2).options_size =
      sumFootprint ((removeOption (addOption (newTCP 0 0) ⟨2, 2, [0, 4]⟩) 2).2).options :=
  ⟨claim_C5_amended.2.1 (newTCP 0 0) ⟨2, 2, [0, 4]⟩ (by decide),
   claim_C5_amended.2.2 (addOption (newTCP 0 0) ⟨2, 2, [0, 4]⟩) 2 (by decide)⟩

/-- C8 (amended) — for a non-special record the length byte is computed
in byte arithmetic: `(payload length + 2) mod 256` when the stored length
field equals the payload length, and the stored length field reduced to a
byte (`mod 256`, the `uint8_t` cast) when it was spoofed; the payload
bytes follow the kind and length bytes in both cases. -/
theorem claim_C8_amended (o : TCPOpt) (h : 2 ≤ o.kind) :
    (o.lengthField = o.data.length →
      writeOption o = o.kind :: (o.data.length + 2) % 256 :: o.data) ∧
    (o.lengthField ≠ o.data.length →
      writeOption o = o.kind :: o.lengthField % 256 :: o.data) := by
  have hk : ¬(o.kind = 0 ∨ o.kind = 1) := by omega
  constructor
  · intro he
    simp only [writeOption, if_neg hk]
    rw [he, if_pos rfl]
    have h3 : (o.data.length % 256 + 2) % 256 = (o.data.length + 2) % 256 := by omega
    rw [h3]
  · intro he
    have h2 : (if o.lengthField = o.data.length then 2 else 0) = 0 := if_neg he
    simp only [writeOption, if_neg hk, h2, Nat.add_zero]
    have h3 : o.lengthField % 256 % 256 = o.lengthField % 256 := by omega
    rw [h3]

set_option maxRecDepth 8000 in
/-- C8 counterexample — with an unspoofed stored length field of 254 the
emitted length byte wraps to 0, not the claimed `payload length + 2 =
256` (a byte cannot hold 256): `buffer[1] += 2` is `uint8_t`
arithmetic. -/
theorem claim_C8_counterexample :
    (⟨5, 254, List.replicate 254 7⟩ : TCPOpt).lengthField =
      (⟨5, 254, List.replicate 254 7⟩ : TCPOpt).data.length ∧
    (writeOption ⟨5, 254, List.replicate 254 7⟩).getD 1 0 = 0 ∧
    (⟨5, 254, List.replicate 254 7⟩ : TCPOpt).data.length + 2 = 256 ∧
    (writeOption ⟨5, 254, List.replicate 254 7⟩).getD 1 0 ≠
      (⟨5, 254, List.replicate 254 7⟩ : TCPOpt).data.length + 2 := by
  refine ⟨by decide, by decide, by decide, by decide⟩

/-- C8 witness: an unspoofed MSS record emits `4 % 256 = 4` as its length
byte; a record with length field spoofed to 10 over a 2-byte payload
emits 10 verbatim. -/
theorem claim_C8_witness :
    writeOption ⟨2, 2, [0, 4]⟩ =
      2 :: ((⟨2, 2, [0, 4]⟩ : TCPOpt).data.length + 2) % 256 :: [0, 4] ∧
    writeOption ⟨8, 10, [1, 2]⟩ =
      8 :: (⟨8, 10, [1, 2]⟩ : TCPOpt).lengthField % 256 :: [1, 2] :=
  ⟨(claim_C8_amended ⟨2, 2, [0, 4]⟩ (by decide)).1 (by decide),
   (claim_C8_amended ⟨8, 10, [1, 2]⟩ (by decide)).2 (by decide)⟩

/-- C9 — `matches_response` rejects any candidate shorter than the fixed
20-byte header; with enough bytes it matches exactly a reversed port pair
(candidate source port = this segment's destination port and vice versa)
when this segment has no inner payload, and any candidate whose port pair
is not reversed is rejected outright. -/
theorem claim_C9 (seg : TCPSeg) (cand : List Nat) :
    (cand.length < 20 → matchesResponse seg cand = false) ∧
    (20 ≤ cand.length → seg.payload = [] →
      cand.getD 0 0 * 256 + cand.getD 1 0 = seg.hdr.dport →
      cand.getD 2 0 * 256 + cand.getD 3 0 = seg.hdr.sport →
      matchesResponse seg cand = true) ∧
    (¬(cand.getD 0 0 * 256 + cand.getD 1 0 = seg.hdr.dport ∧
       cand.getD 2 0 * 256 + cand.getD 3 0 = seg.hdr.sport) →
      matchesResponse seg cand = false) := by
  refine ⟨?_, ?_, ?_⟩
  · intro h
    unfold matchesResponse
    rw [if_pos h]
  · intro h1 h2 h3 h4
    unfold matchesResponse
    rw [if_neg (by omega), if_pos ⟨h3, h4⟩, if_pos h2]
  · intro h
    unfold matchesResponse
    by_cases hl : cand.length < 20
    · rw [if_pos hl]
    · rw [if_neg hl, if_neg h]

/-- C9 witness: the spec's example — 1234/80 matches a reversed 80/1234
candidate and rejects the unreversed one. -/
theorem claim_C9_witness :
    matchesResponse (newTCP 80 1234) ([0, 80, 4, 210] ++ List.replicate 16 0) = true ∧
    matchesResponse (newTCP 80 1234) ([4, 210, 0, 80] ++ List.replicate 16 0) = false :=
  ⟨(claim_C9 (newTCP 80 1234) ([0, 80, 4, 210] ++ List.replicate 16 0)).2.1
      (by decide) (by decide) (by decide) (by decide),
   (claim_C9 (newTCP 80 1234) ([4, 210, 0, 80] ++ List.replicate 16 0)).2.2
      (by decide)⟩


/-- C2 counterexample — the invariant `data_offset * 4 - 20 ==
total_options_size` does not survive mutation: after constructing a fresh
segment and adding a 4-footprint MSS option, `data_offset` is still 5
(mutators never touch it) while `_total_options_size` is 4. -/
theorem claim_C2_counterexample :
    (addOption (newTCP 0 0) ⟨2, 2, [0, 4]⟩).hdr.doff * 4 - 20 ≠
      (addOption (newTCP 0 0) ⟨2, 2, [0, 4]⟩).total_options_size := by decide

/-- C2 (amended) — `add_option` / `remove_option` update
`_total_options_size` but never `data_offset`; the invariant is
established by `write_serialization`, which recomputes `data_offset` from
`(20 + _total_options_size) / 4`: after serializing any segment whose
options area is 4-byte aligned and fits the 4-bit field (at most 40
bytes), the segment satisfies `data_offset * 4 - 20 ==
total_options_size`. -/
theorem claim_C2_amended (seg : TCPSeg) (parent : Parent)
    (h4 : seg.total_options_size % 4 = 0) (h40 : seg.total_options_size ≤ 40) :
    (writeSerialization seg parent).2.hdr.doff * 4 - 20 =
      (writeSerialization seg parent).2.total_options_size := by
  cases parent <;> simp [writeSerialization] <;> omega

/-- C2 witness: the invariant after serializing a segment holding one
MSS option. -/
theorem claim_C2_witness :
    (writeSerialization (addOption (newTCP 1 2) ⟨2, 2, [0, 4]⟩) Parent.none).2.hdr.doff * 4
        - 20 =
      (writeSerialization (addOption (newTCP 1 2) ⟨2, 2, [0, 4]⟩) Parent.none).2.total_options_size :=
  claim_C2_amended (addOption (newTCP 1 2) ⟨2, 2, [0, 4]⟩) Parent.none
    (by decide) (by decide)

/-- C10 counterexample — serialization stores `(20 +
_total_options_size) / 4` into the 4-bit `doff` bitfield, so the value is
truncated mod 16: with a 44-byte options area the quotient is 16 but the
stored field reads 0. -/
theorem claim_C10_counterexample :
    (writeSerialization (addOption (newTCP 0 0) ⟨5, 42, List.replicate 42 0⟩)
        Parent.none).2.hdr.doff = 0 ∧
    (20 + (addOption (newTCP 0 0) ⟨5, 42, List.replicate 42 0⟩).total_options_size) / 4
      = 16 ∧
    (writeSerialization (addOption (newTCP 0 0) ⟨5, 42, List.replicate 42 0⟩)
        Parent.none).2.hdr.doff ≠
      (20 + (addOption (newTCP 0 0) ⟨5, 42, List.replicate 42 0⟩).total_options_size) / 4 := by
  refine ⟨by decide, by decide, by decide⟩

/-- C10 (amended) — `write_serialization` mutates exactly two fields of
the segment: the stored `data_offset` becomes `(20 +
total_options_size) / 4` truncated to the 4-bit field (mod 16), and the
stored checksum becomes the computed checksum over pseudo-header plus
serialized bytes for an IPv4/IPv6 parent, or zero when no such parent is
present; the option table, both size counters, the payload and every
other header field are unchanged. -/
theorem claim_C10_amended (seg : TCPSeg) (parent : Parent) :
    ((writeSerialization seg parent).2.options = seg.options ∧
     (writeSerialization seg parent).2.options_size = seg.options_size ∧
     (writeSerialization seg parent).2.total_options_size = seg.total_options_size ∧
     (writeSerialization seg parent).2.payload = seg.payload ∧
     (writeSerialization seg parent).2.hdr.sport = seg.hdr.sport ∧
     (writeSerialization seg parent).2.hdr.dport = seg.hdr.dport ∧
     (writeSerialization seg parent).2.hdr.seq = seg.hdr.seq ∧
     (writeSerialization seg parent).2.hdr.ack_seq = seg.hdr.ack_seq ∧
     (writeSerialization seg parent).2.hdr.res1 = seg.hdr.res1 ∧
     (writeSerialization seg parent).2.hdr.flags8 = seg.hdr.flags8 ∧
     (writeSerialization seg parent).2.hdr.window = seg.hdr.window ∧
     (writeSerialization seg parent).2.hdr.urg_ptr = seg.hdr.urg_ptr) ∧
    (writeSerialization seg parent).2.hdr.doff =
      (20 + seg.total_options_size) / 4 % 16 ∧
    (parent = Parent.none → (writeSerialization seg parent).2.hdr.check = 0) ∧
    (parent ≠ Parent.none → (writeSerialization seg parent).2.hdr.check =
      tcpChecksum parent (20 + seg.total_options_size + seg.payload.length)
        (serializeBody seg)) := by
  cases parent <;> simp [writeSerialization]

/-- C10 witness: checksum stored for an IPv4 parent and left at zero
without one, at a concrete segment. -/
theorem claim_C10_witness :
    (writeSerialization (newTCP 1 2) (Parent.ipv4 3 4)).2.hdr.check =
      tcpChecksum (Parent.ipv4 3 4)
        (20 + (newTCP 1 2).total_options_size + (newTCP 1 2).payload.length)
        (serializeBody (newTCP 1 2)) ∧
    (writeSerialization (newTCP 1 2) Parent.none).2.hdr.check = 0 :=
  ⟨(claim_C10_amended (newTCP 1 2) (Parent.ipv4 3 4)).2.2.2 (by decide),
   (claim_C10_amended (newTCP 1 2) Parent.none).2.2.1 rfl⟩


/-- Mapping over the parsed-options result preserves the error case. -/
lemma exceptMap_error_iff {α β : Type} (g : α → β) (e : Except Unit α) :
    (Except.map g e = Except.error ()) ↔ (e = Except.error ()) := by
  cases e with
  | error u => cases u; constructor <;> intro <;> rfl
  | ok a =>
    constructor <;> intro h <;> simp [Except.map] at h

/-- The option-scanning loop errors exactly when the spec's
malformed-option condition holds (for a buffer at least `hdrEnd` long, as
guaranteed by the constructor's `data_offset` check). -/
lemma scanOptions_error_iff (buf : List Nat) (hdrEnd : Nat)
    (hle : hdrEnd ≤ buf.length) :
    ∀ fuel p, ((scanOptions buf hdrEnd fuel p).1 = Except.error () ↔
      specScanFails buf hdrEnd fuel p = true) := by
  intro fuel
  induction fuel with
  | zero => intro p; constructor <;> intro <;> rfl
  | succ f ih =>
    intro p
    simp only [scanOptions, specScanFails]
    by_cases h1 : p < hdrEnd
    · rw [if_pos h1, if_pos h1]
      have hb : p < buf.length := by omega
      rw [if_pos hb]
      by_cases h2 : buf.getD p 0 ≤ 1
      · rw [if_pos h2, if_pos h2]
        rw [exceptMap_error_iff]
        exact ih (p + 1)
      · rw [if_neg h2, if_neg h2]
        by_cases h3 : p + 1 < buf.length
        · rw [if_pos h3, if_pos h3]
          by_cases h4 : buf.getD (p + 1) 0 < 2
          · rw [if_pos h4, if_pos h4]
            constructor <;> intro <;> rfl
          · rw [if_neg h4, if_neg h4]
            by_cases h5 : p + buf.getD (p + 1) 0 > hdrEnd
            · rw [if_pos h5, if_pos h5]
              constructor <;> intro <;> rfl
            · rw [if_neg h5, if_neg h5]
              rw [exceptMap_error_iff]
              exact ih (p + buf.getD (p + 1) 0)
        · rw [if_neg h3, if_neg h3]
          constructor <;> intro <;> rfl
    · rw [if_neg h1, if_neg h1]
      constructor <;> intro h <;> simp at h


/-- C3 — the parsing constructor fails (with `malformed_packet`, modelled
as the error result; no partial segment exists, the result type carries
either a whole segment or nothing) exactly when the buffer is shorter
than the 20-byte fixed header, or the declared `data_offset * 4` exceeds
the buffer length or is below 20, or the option scan hits a non-special
option whose declared length byte is below 2 or whose record would extend
past `data_offset * 4`. -/
theorem claim_C3 (buf : List Nat) :
    parse buf = Except.error () ↔
      (buf.length < 20 ∨
       buf.getD 12 0 / 16 * 4 > buf.length ∨
       buf.getD 12 0 / 16 * 4 < 20 ∨
       specScanFails buf (buf.getD 12 0 / 16 * 4) (buf.getD 12 0 / 16 * 4) 20 = true) := by
  simp only [parse]
  by_cases h1 : buf.length < 20
  · simp [h1]
  · rw [if_neg h1]
    have hd : (decodeHeader buf).doff = buf.getD 12 0 / 16 := rfl
    rw [hd]
    by_cases h2 : buf.getD 12 0 / 16 * 4 > buf.length ∨ buf.getD 12 0 / 16 * 4 < 20
    · rw [if_pos h2]
      rcases h2 with h2 | h2
      · exact iff_of_true rfl (Or.inr (Or.inl h2))
      · exact iff_of_true rfl (Or.inr (Or.inr (Or.inl h2)))
    · rw [if_neg h2]
      push_neg at h2
      have hiff := scanOptions_error_iff buf (buf.getD 12 0 / 16 * 4) h2.1
        (buf.getD 12 0 / 16 * 4) 20
      cases hs : (scanOptions buf (buf.getD 12 0 / 16 * 4) (buf.getD 12 0 / 16 * 4) 20).1 with
      | error e =>
        cases e
        rw [hs] at hiff
        exact iff_of_true rfl (Or.inr (Or.inr (Or.inr (hiff.mp rfl))))
      | ok opts =>
        rw [hs] at hiff
        refine iff_of_false (by simp) ?_
        intro h
        rcases h with h | h | h | h
        · omega
        · omega
        · omega
        · exact absurd (hiff.mpr h) (by simp)


/-- Rebuilding a parsed option list through `add_option` appends it to
the table. -/
lemma foldl_addOption_options (opts : List TCPOpt) (seg : TCPSeg) :
    (opts.foldl addOption seg).options = seg.options ++ opts := by
  induction opts generalizing seg with
  | nil => simp
  | cons o rest ih =>
    show (rest.foldl addOption (addOption seg o)).options = seg.options ++ o :: rest
    rw [ih, addOption]
    simp

/-- On a successful scan every read index lies in `[p, hdrEnd)` and the
parsed records' wire lengths sum to exactly the scanned span. -/
lemma scanOptions_ok_bounds (buf : List Nat) (hdrEnd : Nat)
    (hle : hdrEnd ≤ buf.length) :
    ∀ fuel p opts, p ≤ hdrEnd →
      (scanOptions buf hdrEnd fuel p).1 = Except.ok opts →
      ((∀ i ∈ (scanOptions buf hdrEnd fuel p).2, p ≤ i ∧ i < hdrEnd) ∧
       p + sumWireLen opts = hdrEnd) := by
  intro fuel
  induction fuel with
  | zero =>
    intro p opts _ h
    simp [scanOptions] at h
  | succ f ih =>
    intro p opts hp h
    simp only [scanOptions] at h ⊢
    by_cases h1 : p < hdrEnd
    · rw [if_pos h1] at h ⊢
      have hb : p < buf.length := by omega
      rw [if_pos hb] at h ⊢
      by_cases h2 : buf.getD p 0 ≤ 1
      · rw [if_pos h2] at h ⊢
        cases hr : (scanOptions buf hdrEnd f (p + 1)).1 with
        | error e => rw [hr] at h; simp [Except.map] at h
        | ok l =>
          rw [hr] at h
          simp only [Except.map] at h
          cases h
          obtain ⟨hbnd, hsum⟩ := ih (p + 1) l (by omega) hr
          constructor
          · intro i hi
            rcases List.mem_cons.mp hi with rfl | hi
            · omega
            · have := hbnd i hi
              omega
          · have hw : wireLen ⟨buf.getD p 0, 0, []⟩ = 1 := by
              simp only [wireLen]
              rw [if_pos (by omega : buf.getD p 0 = 0 ∨ buf.getD p 0 = 1)]
            simp only [sumWireLen, hw]
            omega
      · rw [if_neg h2] at h ⊢
        by_cases h3 : p + 1 < buf.length
        · rw [if_pos h3] at h ⊢
          by_cases h4 : buf.getD (p + 1) 0 < 2
          · rw [if_pos h4] at h; simp at h
          · rw [if_neg h4] at h ⊢
            by_cases h5 : p + buf.getD (p + 1) 0 > hdrEnd
            · rw [if_pos h5] at h; simp at h
            · rw [if_neg h5] at h ⊢
              cases hr : (scanOptions buf hdrEnd f (p + buf.getD (p + 1) 0)).1 with
              | error e => rw [hr] at h; simp [Except.map] at h
              | ok l =>
                rw [hr] at h
                simp only [Except.map] at h
                cases h
                obtain ⟨hbnd, hsum⟩ := ih (p + buf.getD (p + 1) 0) l (by omega) hr
                constructor
                · intro i hi
                  rcases List.mem_cons.mp hi with rfl | hi
                  · omega
                  · rcases List.mem_cons.mp hi with rfl | hi
                    · omega
                    · rcases List.mem_append.mp hi with hi | hi
                      · obtain ⟨j, hj, rfl⟩ := List.mem_map.mp hi
                        have := List.mem_range.mp hj
                        omega
                      · have := hbnd i hi
                        omega
                · have hlenp :
                      ((buf.drop (p + 2)).take (buf.getD (p + 1) 0 - 2)).length =
                        buf.getD (p + 1) 0 - 2 := by
                    simp only [List.length_take, List.length_drop]
                    omega
                  have hw : wireLen ⟨buf.getD p 0, buf.getD (p + 1) 0 - 2,
                      (buf.drop (p + 2)).take (buf.getD (p + 1) 0 - 2)⟩ =
                      buf.getD (p + 1) 0 := by
                    have hk : ¬(buf.getD p 0 = 0 ∨ buf.getD p 0 = 1) := by omega
                    simp only [wireLen, if_neg hk, hlenp]
                    omega
                  simp only [sumWireLen, hw]
                  omega
        · rw [if_neg h3] at h; simp at h
    · rw [if_neg h1] at h ⊢
      simp only [Prod.fst] at h
      cases h
      constructor
      · intro i hi
        simp at hi
      · simp only [sumWireLen]
        omega


/-- C4 (amended) — on every successful parse the option scan reads only
bytes in `[20, header_end)` and stops exactly at `header_end` (the parsed
records' wire lengths fill the options area exactly).  On a failing parse
the loop can read one length byte at or beyond `header_end` (its
single-byte reads are bounds-checked against the full buffer, not
`header_end`; see the counterexample) before the malformed-option checks
reject the record. -/
theorem claim_C4_amended (buf : List Nat) (seg : TCPSeg)
    (h : parse buf = Except.ok seg) :
    (∀ i ∈ (scanOptions buf (buf.getD 12 0 / 16 * 4) (buf.getD 12 0 / 16 * 4) 20).2,
        20 ≤ i ∧ i < buf.getD 12 0 / 16 * 4) ∧
    20 + sumWireLen seg.options = buf.getD 12 0 / 16 * 4 := by
  simp only [parse] at h
  by_cases h1 : buf.length < 20
  · rw [if_pos h1] at h
    simp at h
  · rw [if_neg h1] at h
    have hd : (decodeHeader buf).doff = buf.getD 12 0 / 16 := rfl
    rw [hd] at h
    by_cases h2 : buf.getD 12 0 / 16 * 4 > buf.length ∨ buf.getD 12 0 / 16 * 4 < 20
    · rw [if_pos h2] at h
      simp at h
    · rw [if_neg h2] at h
      push_neg at h2
      cases hs : (scanOptions buf (buf.getD 12 0 / 16 * 4) (buf.getD 12 0 / 16 * 4) 20).1 with
      | error e =>
        rw [hs] at h
        simp at h
      | ok opts =>
        rw [hs] at h
        injection h with h
        obtain ⟨hbnd, hsum⟩ := scanOptions_ok_bounds buf (buf.getD 12 0 / 16 * 4) h2.1
          (buf.getD 12 0 / 16 * 4) 20 opts (by omega) hs
        refine ⟨hbnd, ?_⟩
        have ho : seg.options = opts := by
          rw [← h]
          simp [foldl_addOption_options]
        rw [ho]
        exact hsum

/-- C4 counterexample — the claim says every length byte read lies
strictly before `header_end`: with `data_offset = 6` (`header_end = 24`),
options area `[1, 1, 1, 9]` and two trailing payload bytes, the scan
finds kind 9 at index 23 and reads its length byte at index 24 =
`header_end` (in bounds for the full 26-byte buffer) before rejecting the
segment. -/
theorem claim_C4_counterexample :
    parse [0, 0, 0, 0, 0, 0, 0, 0, 0, 0, 0, 0, 96, 0, 0, 0, 0, 0, 0, 0,
      1, 1, 1, 9, 2, 0] = Except.error () ∧
    24 ∈ (scanOptions [0, 0, 0, 0, 0, 0, 0, 0, 0, 0, 0, 0, 96, 0, 0, 0, 0, 0, 0, 0,
      1, 1, 1, 9, 2, 0]
      ([0, 0, 0, 0, 0, 0, 0, 0, 0, 0, 0, 0, 96, 0, 0, 0, 0, 0, 0, 0,
        1, 1, 1, 9, 2, 0].getD 12 0 / 16 * 4)
      ([0, 0, 0, 0, 0, 0, 0, 0, 0, 0, 0, 0, 96, 0, 0, 0, 0, 0, 0, 0,
        1, 1, 1, 9, 2, 0].getD 12 0 / 16 * 4) 20).2 ∧
    ¬(24 < [0, 0, 0, 0, 0, 0, 0, 0, 0, 0, 0, 0, 96, 0, 0, 0, 0, 0, 0, 0,
      1, 1, 1, 9, 2, 0].getD 12 0 / 16 * 4) := by
  refine ⟨rfl, by decide, by decide⟩

/-- C4 witness: a parse with one MSS option reads exactly the four
option-area bytes 20-23, all below `header_end = 24`, and its records
fill the area. -/
theorem claim_C4_witness :
    (∀ i ∈ (scanOptions [0, 7, 0, 9, 0, 0, 0, 0, 0, 0, 0, 0, 96, 0, 0, 0, 0, 0, 0, 0,
        2, 4, 5, 180]
        ([0, 7, 0, 9, 0, 0, 0, 0, 0, 0, 0, 0, 96, 0, 0, 0, 0, 0, 0, 0,
          2, 4, 5, 180].getD 12 0 / 16 * 4)
        ([0, 7, 0, 9, 0, 0, 0, 0, 0, 0, 0, 0, 96, 0, 0, 0, 0, 0, 0, 0,
          2, 4, 5, 180].getD 12 0 / 16 * 4) 20).2,
        20 ≤ i ∧ i < [0, 7, 0, 9, 0, 0, 0, 0, 0, 0, 0, 0, 96, 0, 0, 0, 0, 0, 0, 0,
          2, 4, 5, 180].getD 12 0 / 16 * 4) ∧
    20 + sumWireLen (⟨⟨7, 9, 0, 0, 0, 6, 0, 0, 0, 0⟩, [⟨2, 2, [5, 180]⟩], 4, 4, []⟩
        : TCPSeg).options =
      [0, 7, 0, 9, 0, 0, 0, 0, 0, 0, 0, 0, 96, 0, 0, 0, 0, 0, 0, 0,
        2, 4, 5, 180].getD 12 0 / 16 * 4 :=
  claim_C4_amended
    [0, 7, 0, 9, 0, 0, 0, 0, 0, 0, 0, 0, 96, 0, 0, 0, 0, 0, 0, 0, 2, 4, 5, 180]
    ⟨⟨7, 9, 0, 0, 0, 6, 0, 0, 0, 0⟩, [⟨2, 2, [5, 180]⟩], 4, 4, []⟩
    (by rfl)


/-- Each option emits exactly its wire length in bytes. -/
lemma writeOption_length (o : TCPOpt) : (writeOption o).length = wireLen o := by
  by_cases h : o.kind = 0 ∨ o.kind = 1
  · simp [writeOption, wireLen, h]
  · simp [writeOption, wireLen, h]
    omega

/-- Concatenating the emitted options gives the summed wire length. -/
lemma flatMap_writeOption_length (opts : List TCPOpt) :
    (opts.flatMap writeOption).length = sumWireLen opts := by
  induction opts with
  | nil => rfl
  | cons o rest ih => simp [List.flatMap_cons, writeOption_length, sumWireLen, ih]

/-- For a well-formed record the counted footprint is the emitted wire
length. -/
lemma footprint_eq_wireLen {o : TCPOpt} (h : WFOpt o) : footprint o = wireLen o := by
  obtain ⟨-, -, -, h01, hne, -⟩ := h
  by_cases hk : o.kind = 0 ∨ o.kind = 1
  · have hd : o.data = [] := h01 (by omega)
    simp [footprint, wireLen, hk, hd]
    omega
  · by_cases hd : o.data.length = 0
    · have h4 : o.kind = 4 := by
        by_contra h4
        exact hne (by omega) h4 (List.length_eq_zero.mp hd)
      simp [footprint, wireLen, hk, hd, h4]
    · simp [footprint, wireLen, hk, hd]
      omega

/-- Well-formed tables emit exactly `_options_size` bytes. -/
lemma sumFootprint_eq_sumWireLen {opts : List TCPOpt}
    (h : ∀ o ∈ opts, WFOpt o) : sumFootprint opts = sumWireLen opts := by
  induction opts with
  | nil => rfl
  | cons o rest ih =>
    simp only [sumFootprint, sumWireLen,
      footprint_eq_wireLen (h o (by simp)), ih (fun x hx => h x (by simp [hx]))]

/-- Rounding up to a multiple of 4 never shrinks. -/
lemma round4_ge (s : Nat) : s ≤ round4 s := by
  unfold round4
  split <;> omega

/-- `round4` lands on a multiple of 4. -/
lemma round4_mod (s : Nat) : round4 s % 4 = 0 := by
  unfold round4
  split <;> omega

/-- The fixed header always serializes to 20 bytes. -/
lemma headerBytes_length (h : TCPHeader) : (headerBytes h).length = 20 := by
  simp [headerBytes, be16, be32]

/-- Writing into an all-zero buffer splits it around the written bytes. -/
lemma writeAt_replicate_zero (n p : Nat) (bs : List Nat) (h : p + bs.length ≤ n) :
    writeAt (List.replicate n 0) p bs =
      List.replicate p 0 ++ bs ++ List.replicate (n - p - bs.length) 0 := by
  unfold writeAt
  rw [List.take_replicate, List.drop_replicate]
  have h1 : min p n = p := by omega
  have h2 : n - (p + bs.length) = n - p - bs.length := by omega
  rw [h1, h2]

/-- Writing at position 0 replaces the front of the buffer. -/
lemma writeAt_zero (buf bs : List Nat) :
    writeAt buf 0 bs = bs ++ buf.drop bs.length := by
  unfold writeAt
  simp

/-- Under consistent size bookkeeping the serialization buffer is the
header, the emitted options, the No-Op padding and the payload laid out
back to back. -/
lemma serializeBody_eq (seg : TCPSeg)
    (hlen : (seg.options.flatMap writeOption).length = seg.options_size)
    (hle : seg.options_size ≤ seg.total_options_size) :
    serializeBody seg =
      headerBytes { seg.hdr with
          check := 0
          doff := (20 + seg.total_options_size) / 4 % 16 } ++
        (seg.options.flatMap writeOption ++
          (List.replicate (seg.total_options_size - seg.options_size) 1 ++
            seg.payload)) := by
  have hA : writeAt (List.replicate (20 + seg.total_options_size + seg.payload.length) 0)
      (20 + seg.total_options_size) seg.payload =
      List.replicate (20 + seg.total_options_size) 0 ++ seg.payload := by
    rw [writeAt_replicate_zero _ _ _ (by omega)]
    have hz : 20 + seg.total_options_size + seg.payload.length -
        (20 + seg.total_options_size) - seg.payload.length = 0 := by omega
    rw [hz]
    simp
  have hB : writeAt (List.replicate (20 + seg.total_options_size) 0 ++ seg.payload)
      20 (seg.options.flatMap writeOption) =
      List.replicate 20 0 ++ (seg.options.flatMap writeOption ++
        (List.replicate (seg.total_options_size - seg.options_size) 0 ++ seg.payload)) := by
    unfold writeAt
    rw [List.take_append_of_le_length (by simp), List.take_replicate,
        List.drop_append_of_le_length
          (by rw [List.length_replicate]; omega),
        List.drop_replicate, hlen]
    have h1 : min 20 (20 + seg.total_options_size) = 20 := by omega
    have h2 : 20 + seg.total_options_size - (20 + seg.options_size) =
        seg.total_options_size - seg.options_size := by omega
    rw [h1, h2]
    simp [List.append_assoc]
  have hX : ∀ (A M R bs : List Nat), M.length = bs.length →
      writeAt (A ++ (M ++ R)) A.length bs = A ++ (bs ++ R) := by
    intro A M R bs hm
    unfold writeAt
    rw [List.take_left]
    rw [show A.length + bs.length = ((A ++ M).length : Nat) by simp [hm]]
    rw [← List.append_assoc, List.drop_left, List.append_assoc]
  have hC : (if seg.options_size < seg.total_options_size then
      writeAt (List.replicate 20 0 ++ (seg.options.flatMap writeOption ++
          (List.replicate (seg.total_options_size - seg.options_size) 0 ++ seg.payload)))
        (20 + (seg.options.flatMap writeOption).length)
        (List.replicate (seg.total_options_size - seg.options_size) 1)
      else List.replicate 20 0 ++ (seg.options.flatMap writeOption ++
          (List.replicate (seg.total_options_size - seg.options_size) 0 ++ seg.payload))) =
      List.replicate 20 0 ++ (seg.options.flatMap writeOption ++
        (List.replicate (seg.total_options_size - seg.options_size) 1 ++ seg.payload)) := by
    by_cases hpad : seg.options_size < seg.total_options_size
    · rw [if_pos hpad]
      rw [show List.replicate 20 (0 : Nat) ++ (seg.options.flatMap writeOption ++
            (List.replicate (seg.total_options_size - seg.options_size) 0 ++ seg.payload)) =
          (List.replicate 20 0 ++ seg.options.flatMap writeOption) ++
            (List.replicate (seg.total_options_size - seg.options_size) 0 ++ seg.payload)
          from by rw [List.append_assoc]]
      rw [show 20 + (seg.options.flatMap writeOption).length =
          ((List.replicate 20 (0 : Nat) ++ seg.options.flatMap writeOption).length : Nat)
          from by simp; omega]
      rw [hX _ _ _ _ (by simp)]
      rw [List.append_assoc]
    · rw [if_neg hpad]
      have h0 : seg.total_options_size - seg.options_size = 0 := by omega
      rw [h0]
      simp
  have hD : ∀ X : List Nat, writeAt (List.replicate 20 0 ++ X) 0
      (headerBytes { seg.hdr with
        check := 0
        doff := (20 + seg.total_options_size) / 4 % 16 }) =
      headerBytes { seg.hdr with
        check := 0
        doff := (20 + seg.total_options_size) / 4 % 16 } ++ X := by
    intro X
    rw [writeAt_zero, headerBytes_length, List.drop_left' (by simp)]
  show writeAt _ 0 _ = _
  rw [hA, hB, hC, hD]

/-- Indexing past an appended prefix lands in the suffix. -/
lemma getD_append_right (l m : List Nat) (i : Nat) :
    (l ++ m).getD (l.length + i) 0 = m.getD i 0 := by
  rw [List.getD_eq_getElem?_getD, List.getD_eq_getElem?_getD]
  rw [List.getElem?_append_right (by omega)]
  congr 2
  omega

/-- Indexing exactly at the end of an appended prefix reads the suffix
head. -/
lemma getD_append_right0 (l m : List Nat) :
    (l ++ m).getD l.length 0 = m.getD 0 0 := by
  have h := getD_append_right l m 0
  simpa using h

/-- Patching the checksum bytes of a serialized header rewrites exactly
the stored checksum field. -/
lemma writeAt_check (h : TCPHeader) (rest : List Nat) (c : Nat) :
    writeAt (headerBytes h ++ rest) 16 (be16 c) =
      headerBytes { h with check := c } ++ rest := rfl

/-- Decoding the serialized header bytes recovers every field that is in
its storage range. -/
lemma decodeHeader_headerBytes (x : TCPHeader) (rest : List Nat)
    (h1 : x.sport < 65536) (h2 : x.dport < 65536) (h3 : x.seq < 4294967296)
    (h4 : x.ack_seq < 4294967296) (h5 : x.res1 < 16) (h6 : x.doff < 16)
    (h7 : x.flags8 < 256) (h8 : x.window < 65536) (h9 : x.check < 65536)
    (h10 : x.urg_ptr < 65536) :
    (decodeHeader (headerBytes x ++ rest)).sport = x.sport ∧
    (decodeHeader (headerBytes x ++ rest)).dport = x.dport ∧
    (decodeHeader (headerBytes x ++ rest)).seq = x.seq ∧
    (decodeHeader (headerBytes x ++ rest)).ack_seq = x.ack_seq ∧
    (decodeHeader (headerBytes x ++ rest)).res1 = x.res1 ∧
    (decodeHeader (headerBytes x ++ rest)).doff = x.doff ∧
    (decodeHeader (headerBytes x ++ rest)).flags8 = x.flags8 ∧
    (decodeHeader (headerBytes x ++ rest)).window = x.window ∧
    (decodeHeader (headerBytes x ++ rest)).check = x.check ∧
    (decodeHeader (headerBytes x ++ rest)).urg_ptr = x.urg_ptr := by
  refine ⟨?_, ?_, ?_, ?_, ?_, ?_, ?_, ?_, ?_, ?_⟩
  · show x.sport / 256 % 256 * 256 + x.sport % 256 = x.sport
    omega
  · show x.dport / 256 % 256 * 256 + x.dport % 256 = x.dport
    omega
  · show x.seq / 16777216 % 256 * 16777216 + x.seq / 65536 % 256 * 65536 +
      x.seq / 256 % 256 * 256 + x.seq % 256 = x.seq
    omega
  · show x.ack_seq / 16777216 % 256 * 16777216 + x.ack_seq / 65536 % 256 * 65536 +
      x.ack_seq / 256 % 256 * 256 + x.ack_seq % 256 = x.ack_seq
    omega
  · show (x.doff % 16 * 16 + x.res1 % 16) % 16 = x.res1
    omega
  · show (x.doff % 16 * 16 + x.res1 % 16) / 16 = x.doff
    omega
  · show x.flags8 % 256 = x.flags8
    omega
  · show x.window / 256 % 256 * 256 + x.window % 256 = x.window
    omega
  · show x.check / 256 % 256 * 256 + x.check % 256 = x.check
    omega
  · show x.urg_ptr / 256 % 256 * 256 + x.urg_ptr % 256 = x.urg_ptr
    omega

/-- Scanning a run of No-Op padding bytes that exactly reaches
`header_end` parses one No-Op record per byte. -/
lemma scanOptions_pads : ∀ (pad : Nat) (pre post : List Nat) (fuel : Nat),
    fuel ≥ pad + 1 →
    (scanOptions (pre ++ (List.replicate pad 1 ++ post)) (pre.length + pad)
        fuel pre.length).1 =
      Except.ok (List.replicate pad (⟨1, 0, []⟩ : TCPOpt)) := by
  intro pad
  induction pad with
  | zero =>
    intro pre post fuel hf
    cases fuel with
    | zero => omega
    | succ f =>
      simp only [scanOptions]
      rw [if_neg (by omega)]
      rfl
  | succ pd ih =>
    intro pre post fuel hf
    cases fuel with
    | zero => omega
    | succ f =>
      simp only [scanOptions]
      rw [if_pos (by omega)]
      rw [if_pos (by simp)]
      have hk : (pre ++ (List.replicate (pd + 1) 1 ++ post)).getD pre.length 0 = 1 := by
        rw [getD_append_right0]
        simp [List.replicate_succ]
      rw [hk]
      rw [if_pos (by decide)]
      have hrw : pre ++ (List.replicate (pd + 1) 1 ++ post) =
          (pre ++ [1]) ++ (List.replicate pd 1 ++ post) := by
        simp [List.replicate_succ]
      have hlen : pre.length + (pd + 1) = (pre ++ [1]).length + pd := by
        simp; omega
      have hp : pre.length + 1 = (pre ++ [1]).length := by simp
      rw [hrw, hlen, hp, ih (pre ++ [1]) post f (by omega)]
      simp [List.replicate_succ, Except.map]


/-- Scanning a region laid out as the emitted well-formed options
followed by No-Op padding, ending exactly at `header_end`, recovers the
option records followed by one No-Op record per padding byte. -/
lemma scanOptions_layout : ∀ (opts : List TCPOpt) (pre post : List Nat) (pad fuel : Nat),
    (∀ o ∈ opts, WFOpt o) →
    fuel ≥ sumWireLen opts + pad + 1 →
    (scanOptions (pre ++ (opts.flatMap writeOption ++ (List.replicate pad 1 ++ post)))
        (pre.length + (sumWireLen opts + pad)) fuel pre.length).1 =
      Except.ok (opts ++ List.replicate pad (⟨1, 0, []⟩ : TCPOpt)) := by
  intro opts
  induction opts with
  | nil =>
    intro pre post pad fuel hwf hf
    have h := scanOptions_pads pad pre post fuel (by simpa [sumWireLen] using hf)
    simpa [sumWireLen] using h
  | cons o rest ih =>
    intro pre post pad fuel hwf hf
    obtain ⟨hk256, hlf, hlen255, h01, hne, hbytes⟩ := hwf o (by simp)
    have hwf' : ∀ x ∈ rest, WFOpt x := fun x hx => hwf x (by simp [hx])
    have hsw : sumWireLen (o :: rest) = wireLen o + sumWireLen rest := rfl
    have hwl1 : 1 ≤ wireLen o := by
      unfold wireLen
      split <;> omega
    cases fuel with
    | zero => omega
    | succ f =>
      by_cases hk : o.kind ≤ 1
      · have hdata : o.data = [] := h01 hk
        have hlf0 : o.lengthField = 0 := by rw [hlf, hdata]; rfl
        have ho : o = ⟨o.kind, 0, []⟩ := by rw [← hlf0, ← hdata]
        have hw : writeOption o = [o.kind] := by
          unfold writeOption
          rw [if_pos (by omega)]
        have hwl : wireLen o = 1 := by
          unfold wireLen
          rw [if_pos (by omega)]
        have hbuf : pre ++ ((o :: rest).flatMap writeOption ++
            (List.replicate pad 1 ++ post)) =
            pre ++ (o.kind :: (rest.flatMap writeOption ++
              (List.replicate pad 1 ++ post))) := by
          simp [List.flatMap_cons, hw]
        simp only [scanOptions]
        rw [hbuf]
        rw [if_pos (by omega)]
        rw [if_pos (by simp)]
        have hkd : (pre ++ (o.kind :: (rest.flatMap writeOption ++
            (List.replicate pad 1 ++ post)))).getD pre.length 0 = o.kind := by
          rw [getD_append_right0]
          rfl
        rw [hkd]
        rw [if_pos hk]
        have hres := ih (pre ++ [o.kind]) post pad f hwf' (by omega)
        rw [show (pre ++ [o.kind]) ++ (rest.flatMap writeOption ++
              (List.replicate pad 1 ++ post)) =
            pre ++ (o.kind :: (rest.flatMap writeOption ++
              (List.replicate pad 1 ++ post))) from by simp] at hres
        rw [show ((pre ++ [o.kind]).length : Nat) = pre.length + 1 from by simp] at hres
        rw [show pre.length + 1 + (sumWireLen rest + pad) =
            pre.length + (sumWireLen (o :: rest) + pad) from by rw [hsw, hwl]; omega] at hres
        rw [hres]
        rw [← ho]
        simp [Except.map]
      · have hw : writeOption o = o.kind :: (o.data.length + 2) :: o.data := by
          unfold writeOption
          rw [if_neg (by omega)]
          rw [hlf, if_pos rfl]
          rw [show (o.data.length % 256 + 2) % 256 = o.data.length + 2 from by omega]
        have hwl : wireLen o = 2 + o.data.length := by
          unfold wireLen
          rw [if_neg (by omega)]
        have ho : o = ⟨o.kind, o.data.length, o.data⟩ := by rw [← hlf]
        have hbuf : pre ++ ((o :: rest).flatMap writeOption ++
            (List.replicate pad 1 ++ post)) =
            pre ++ (o.kind :: (o.data.length + 2) :: (o.data ++
              (rest.flatMap writeOption ++ (List.replicate pad 1 ++ post)))) := by
          simp [List.flatMap_cons, hw]
        simp only [scanOptions]
        rw [hbuf]
        rw [if_pos (by omega)]
        rw [if_pos (by simp)]
        have hkd : (pre ++ (o.kind :: (o.data.length + 2) :: (o.data ++
            (rest.flatMap writeOption ++ (List.replicate pad 1 ++ post))))).getD
            pre.length 0 = o.kind := by
          rw [getD_append_right0]
          rfl
        rw [hkd]
        rw [if_neg (by omega)]
        rw [if_pos (by simp)]
        have hld : (pre ++ (o.kind :: (o.data.length + 2) :: (o.data ++
            (rest.flatMap writeOption ++ (List.replicate pad 1 ++ post))))).getD
            (pre.length + 1) 0 = o.data.length + 2 := by
          rw [getD_append_right]
          rfl
        rw [hld]
        rw [if_neg (by omega)]
        rw [if_neg (by omega)]
        rw [show o.data.length + 2 - 2 = o.data.length from by omega]
        have hpay : ((pre ++ (o.kind :: (o.data.length + 2) :: (o.data ++
            (rest.flatMap writeOption ++ (List.replicate pad 1 ++ post))))).drop
            (pre.length + 2)).take o.data.length = o.data := by
          rw [show pre ++ (o.kind :: (o.data.length + 2) :: (o.data ++
              (rest.flatMap writeOption ++ (List.replicate pad 1 ++ post)))) =
              (pre ++ [o.kind, o.data.length + 2]) ++ (o.data ++
                (rest.flatMap writeOption ++ (List.replicate pad 1 ++ post)))
              from by simp]
          rw [List.drop_left' (by simp)]
          rw [show o.data.length = o.data.length from rfl]
          exact List.take_left o.data _
        rw [hpay]
        have hres := ih (pre ++ (o.kind :: (o.data.length + 2) :: o.data)) post pad f
          hwf' (by omega)
        rw [show (pre ++ (o.kind :: (o.data.length + 2) :: o.data)) ++
              (rest.flatMap writeOption ++ (List.replicate pad 1 ++ post)) =
            pre ++ (o.kind :: (o.data.length + 2) :: (o.data ++
              (rest.flatMap writeOption ++ (List.replicate pad 1 ++ post))))
            from by simp] at hres
        rw [show ((pre ++ (o.kind :: (o.data.length + 2) :: o.data)).length : Nat) =
            pre.length + (2 + o.data.length) from by simp; omega] at hres
        rw [show pre.length + (2 + o.data.length) + (sumWireLen rest + pad) =
            pre.length + (sumWireLen (o :: rest) + pad) from by rw [hsw, hwl]; omega] at hres
        rw [show pre.length + (o.data.length + 2) =
            pre.length + (2 + o.data.length) from by omega]
        rw [hres]
        rw [← ho]
        simp [Except.map]


/-- The stored checksum always fits its 16-bit field. -/
lemma tcpChecksum_lt (p : Parent) (l : Nat) (b : List Nat) :
    tcpChecksum p l b < 65536 := by
  unfold tcpChecksum
  omega

/-- Rebuilding options through `add_option` never touches the header. -/
lemma foldl_addOption_hdr (opts : List TCPOpt) (seg : TCPSeg) :
    (opts.foldl addOption seg).hdr = seg.hdr := by
  induction opts generalizing seg with
  | nil => rfl
  | cons o rest ih => exact ih (addOption seg o)

/-- C1 (amended) — round-trip through serialize-then-parse for a validly
constructed segment: parsing the serialized bytes succeeds and reproduces
every header field except the checksum and `data_offset` (both computed
during serialization), the original option sequence extended by one No-Op
record per alignment-padding byte (`total_options_size - options_size` of
them), and the exact trailing payload bytes. -/
theorem claim_C1_amended (seg : TCPSeg) (parent : Parent) (hwf : WFSeg seg) :
    ∃ s, parse (writeSerialization seg parent).1 = Except.ok s ∧
      s.hdr.sport = seg.hdr.sport ∧
      s.hdr.dport = seg.hdr.dport ∧
      s.hdr.seq = seg.hdr.seq ∧
      s.hdr.ack_seq = seg.hdr.ack_seq ∧
      s.hdr.res1 = seg.hdr.res1 ∧
      s.hdr.flags8 = seg.hdr.flags8 ∧
      s.hdr.window = seg.hdr.window ∧
      s.hdr.urg_ptr = seg.hdr.urg_ptr ∧
      s.options = seg.options ++
        List.replicate (seg.total_options_size - seg.options_size)
          (⟨1, 0, []⟩ : TCPOpt) ∧
      s.payload = seg.payload := by
  obtain ⟨hos, htot, h40, hopts, hsp, hdp, hsq, hak, hr1, hfl, hwin, hurg, hpayb⟩ := hwf
  have hswos : sumWireLen seg.options = seg.options_size := by
    rw [← sumFootprint_eq_sumWireLen hopts, ← hos]
  have hwire : (seg.options.flatMap writeOption).length = seg.options_size := by
    rw [flatMap_writeOption_length, hswos]
  have hle : seg.options_size ≤ seg.total_options_size := by
    rw [htot]
    exact round4_ge _
  have h4 : seg.total_options_size % 4 = 0 := by
    rw [htot]
    exact round4_mod _
  have key : ∀ c : Nat, c < 65536 →
      ∃ s, parse (headerBytes (hdrSerial seg.hdr c ((20 + seg.total_options_size) / 4 % 16)) ++
          (seg.options.flatMap writeOption ++
            (List.replicate (seg.total_options_size - seg.options_size) 1 ++
              seg.payload))) = Except.ok s ∧
        s.hdr.sport = seg.hdr.sport ∧
        s.hdr.dport = seg.hdr.dport ∧
        s.hdr.seq = seg.hdr.seq ∧
        s.hdr.ack_seq = seg.hdr.ack_seq ∧
        s.hdr.res1 = seg.hdr.res1 ∧
        s.hdr.flags8 = seg.hdr.flags8 ∧
        s.hdr.window = seg.hdr.window ∧
        s.hdr.urg_ptr = seg.hdr.urg_ptr ∧
        s.options = seg.options ++
          List.replicate (seg.total_options_size - seg.options_size)
            (⟨1, 0, []⟩ : TCPOpt) ∧
        s.payload = seg.payload := by
    intro c hc
    obtain ⟨hdsp, hddp, hdsq, hdak, hdr1, hddoff, hdfl, hdwin, hdck, hdurg⟩ :=
      decodeHeader_headerBytes
        (hdrSerial seg.hdr c ((20 + seg.total_options_size) / 4 % 16))
        (seg.options.flatMap writeOption ++
          (List.replicate (seg.total_options_size - seg.options_size) 1 ++
            seg.payload))
        hsp hdp hsq hak hr1
        (by show (20 + seg.total_options_size) / 4 % 16 < 16; omega) hfl hwin hc hurg
    have hE : (decodeHeader (headerBytes (hdrSerial seg.hdr c ((20 + seg.total_options_size) / 4 % 16)) ++
        (seg.options.flatMap writeOption ++
          (List.replicate (seg.total_options_size - seg.options_size) 1 ++
            seg.payload)))).doff * 4 = 20 + seg.total_options_size := by
      rw [hddoff]
      show (20 + seg.total_options_size) / 4 % 16 * 4 = 20 + seg.total_options_size
      omega
    have hlenge : ¬((headerBytes (hdrSerial seg.hdr c ((20 + seg.total_options_size) / 4 % 16)) ++
        (seg.options.flatMap writeOption ++
          (List.replicate (seg.total_options_size - seg.options_size) 1 ++
            seg.payload))).length < 20) := by
      simp only [List.length_append, headerBytes_length]
      omega
    have hhe_le : 20 + seg.total_options_size ≤ (headerBytes (hdrSerial seg.hdr c ((20 + seg.total_options_size) / 4 % 16)) ++
        (seg.options.flatMap writeOption ++
          (List.replicate (seg.total_options_size - seg.options_size) 1 ++
            seg.payload))).length := by
      simp only [List.length_append, headerBytes_length, List.length_replicate, hwire]
      omega
    have hscan := scanOptions_layout seg.options
      (headerBytes (hdrSerial seg.hdr c ((20 + seg.total_options_size) / 4 % 16)))
      seg.payload (seg.total_options_size - seg.options_size)
      (20 + seg.total_options_size) hopts (by rw [hswos]; omega)
    rw [show ((headerBytes (hdrSerial seg.hdr c ((20 + seg.total_options_size) / 4 % 16))).length : Nat) = 20
        from headerBytes_length _] at hscan
    rw [show 20 + (sumWireLen seg.options +
          (seg.total_options_size - seg.options_size)) = 20 + seg.total_options_size
        from by rw [hswos]; omega] at hscan
    simp only [parse]
    rw [if_neg hlenge]
    rw [hE]
    rw [if_neg (by omega)]
    rw [hscan]
    refine ⟨_, rfl, ?_, ?_, ?_, ?_, ?_, ?_, ?_, ?_, ?_, ?_⟩
    · simp only [foldl_addOption_hdr]
      exact hdsp
    · simp only [foldl_addOption_hdr]
      exact hddp
    · simp only [foldl_addOption_hdr]
      exact hdsq
    · simp only [foldl_addOption_hdr]
      exact hdak
    · simp only [foldl_addOption_hdr]
      exact hdr1
    · simp only [foldl_addOption_hdr]
      exact hdfl
    · simp only [foldl_addOption_hdr]
      exact hdwin
    · simp only [foldl_addOption_hdr]
      exact hdurg
    · simp only [foldl_addOption_options]
      simp
    · rw [show headerBytes (hdrSerial seg.hdr c ((20 + seg.total_options_size) / 4 % 16)) ++
          (seg.options.flatMap writeOption ++
            (List.replicate (seg.total_options_size - seg.options_size) 1 ++
              seg.payload)) =
          (headerBytes (hdrSerial seg.hdr c ((20 + seg.total_options_size) / 4 % 16)) ++
          (seg.options.flatMap writeOption ++
            List.replicate (seg.total_options_size - seg.options_size) 1)) ++
              seg.payload from by simp]
      exact List.drop_left'
        (by simp only [List.length_append, headerBytes_length,
              List.length_replicate, hwire]
            omega)
  cases parent with
  | none =>
    have hb : (writeSerialization seg Parent.none).1 = serializeBody seg := rfl
    rw [hb, serializeBody_eq seg hwire hle]
    exact key 0 (by omega)
  | ipv4 sa da =>
    have hb : (writeSerialization seg (Parent.ipv4 sa da)).1 =
        writeAt (serializeBody seg) 16
          (be16 (tcpChecksum (Parent.ipv4 sa da)
            (20 + seg.total_options_size + seg.payload.length)
            (serializeBody seg))) := rfl
    rw [hb, serializeBody_eq seg hwire hle, writeAt_check]
    exact key _ (tcpChecksum_lt _ _ _)
  | ipv6 sa da =>
    have hb : (writeSerialization seg (Parent.ipv6 sa da)).1 =
        writeAt (serializeBody seg) 16
          (be16 (tcpChecksum (Parent.ipv6 sa da)
            (20 + seg.total_options_size + seg.payload.length)
            (serializeBody seg))) := rfl
    rw [hb, serializeBody_eq seg hwire hle, writeAt_check]
    exact key _ (tcpChecksum_lt _ _ _)


/-- C1 counterexample — the round-trip does not reproduce the option
sequence verbatim: a single 3-byte window-scale record forces one
alignment-padding No-Op byte, which parses back as an extra No-Op record,
so the parsed sequence has two records where the original had one. -/
theorem claim_C1_counterexample :
    Except.map (fun s => s.options)
        (parse (writeSerialization (addOption (newTCP 80 1234) ⟨3, 1, [5]⟩)
          Parent.none).1) =
      Except.ok [⟨3, 1, [5]⟩, ⟨1, 0, []⟩] ∧
    (addOption (newTCP 80 1234) ⟨3, 1, [5]⟩).options = [⟨3, 1, [5]⟩] ∧
    ([⟨3, 1, [5]⟩, ⟨1, 0, []⟩] : List TCPOpt) ≠ [⟨3, 1, [5]⟩] := by
  refine ⟨rfl, rfl, by decide⟩

/-- C1 witness: round-trip of a segment with one MSS option (no padding
needed) and a 3-byte payload. -/
theorem claim_C1_witness :
    ∃ s, parse (writeSerialization { addOption (newTCP 80 1234) ⟨2, 2, [5, 180]⟩ with payload := [1, 2, 3] } Parent.none).1 = Except.ok s ∧
      s.hdr.sport = ({ addOption (newTCP 80 1234) ⟨2, 2, [5, 180]⟩ with payload := [1, 2, 3] } : TCPSeg).hdr.sport ∧
      s.hdr.dport = ({ addOption (newTCP 80 1234) ⟨2, 2, [5, 180]⟩ with payload := [1, 2, 3] } : TCPSeg).hdr.dport ∧
      s.hdr.seq = ({ addOption (newTCP 80 1234) ⟨2, 2, [5, 180]⟩ with payload := [1, 2, 3] } : TCPSeg).hdr.seq ∧
      s.hdr.ack_seq = ({ addOption (newTCP 80 1234) ⟨2, 2, [5, 180]⟩ with payload := [1, 2, 3] } : TCPSeg).hdr.ack_seq ∧
      s.hdr.res1 = ({ addOption (newTCP 80 1234) ⟨2, 2, [5, 180]⟩ with payload := [1, 2, 3] } : TCPSeg).hdr.res1 ∧
      s.hdr.flags8 = ({ addOption (newTCP 80 1234) ⟨2, 2, [5, 180]⟩ with payload := [1, 2, 3] } : TCPSeg).hdr.flags8 ∧
      s.hdr.window = ({ addOption (newTCP 80 1234) ⟨2, 2, [5, 180]⟩ with payload := [1, 2, 3] } : TCPSeg).hdr.window ∧
      s.hdr.urg_ptr = ({ addOption (newTCP 80 1234) ⟨2, 2, [5, 180]⟩ with payload := [1, 2, 3] } : TCPSeg).hdr.urg_ptr ∧
      s.options = ({ addOption (newTCP 80 1234) ⟨2, 2, [5, 180]⟩ with payload := [1, 2, 3] } : TCPSeg).options ++
        List.replicate (({ addOption (newTCP 80 1234) ⟨2, 2, [5, 180]⟩ with payload := [1, 2, 3] } : TCPSeg).total_options_size -
          ({ addOption (newTCP 80 1234) ⟨2, 2, [5, 180]⟩ with payload := [1, 2, 3] } : TCPSeg).options_size) (⟨1, 0, []⟩ : TCPOpt) ∧
      s.payload = ({ addOption (newTCP 80 1234) ⟨2, 2, [5, 180]⟩ with payload := [1, 2, 3] } : TCPSeg).payload :=
  claim_C1_amended { addOption (newTCP 80 1234) ⟨2, 2, [5, 180]⟩ with payload := [1, 2, 3] } Parent.none (by decide)

